import Mathlib

/-!
Shallow embedding of `src/factor/safe_system.c` (yafu-bits): a thread-safe
wrapper around `system()` for Cygwin.  Buffers are modelled as `List Char`
(C char arrays), the 32-bit `int` submission counter with explicit wrapping,
and each call's externally visible behaviour as a trace of events.
-/

namespace SafeSystem

/-- ASCII decimal digit character for `d` (the byte `'0' + d` that `sprintf`
`%d` emits for one digit). -/
def digitChar (d : Nat) : Char := Char.ofNat (48 + d)

/-- C `isdigit` on a char. -/
def isDig (c : Char) : Bool := 48 ≤ c.toNat && c.toNat ≤ 57

/-- C `isspace` on a char (the characters `atoi` skips). -/
def isCSpace (c : Char) : Bool :=
  c = ' ' || c = '\t' || c = '\n' || c = Char.ofNat 11 || c = Char.ofNat 12 || c = '\r'

/-- Decimal digit string of a natural number, as `sprintf` `%d` renders a
non-negative value (most significant digit first, no leading zeros except
for 0 itself). -/
def natDigits (n : Nat) : List Char :=
  if _h : n < 10 then [digitChar n]
  else natDigits (n / 10) ++ [digitChar (n % 10)]
decreasing_by exact Nat.div_lt_self (by omega) (by omega)

/-- Value of a digit string read most-significant-first (the accumulation a
C decimal scan performs). -/
def charsVal (l : List Char) : Nat :=
  l.foldl (fun a c => 10 * a + (c.toNat - 48)) 0

/-- Interpretation of a machine `int` cell holding bit pattern `n % 2^32`
as a signed 32-bit value (what `%d` prints for the C `int` counter). -/
def toSigned32 (n : Nat) : Int :=
  if n % 2 ^ 32 < 2 ^ 31 then ((n % 2 ^ 32 : Nat) : Int)
  else ((n % 2 ^ 32 : Nat) : Int) - 2 ^ 32

/-- `sprintf "%d"` for a signed value. -/
def decimalRepr (i : Int) : List Char :=
  if i < 0 then '-' :: natDigits i.natAbs else natDigits i.natAbs

/-- The fixed pidfile-name prefix `"_yafu_system_."` from
`sprintf(pidfilename, "_yafu_system_.%d", usecount++)`. -/
def PIDFILE_STEM : List Char := "_yafu_system_.".toList

/-- The glue text `" & echo -n $! > "` that `sprintf(ptr, " & echo -n $! > %s",
pidfilename)` appends between the command and the pidfile name. -/
def GLUE : List Char := " & echo -n $! > ".toList

/-- Contents of `pidfilename` after the `sprintf`: prefix plus the decimal
rendering of the current (signed 32-bit) counter value. -/
def pidfileName (u : Nat) : List Char := PIDFILE_STEM ++ decimalRepr (toSigned32 u)

/-- Contents of `buf` after `stpcpy(buf, cmd)` and the second `sprintf`:
the augmented command string handed to `system()`. -/
def augBuf (cmd : List Char) (u : Nat) : List Char := cmd ++ GLUE ++ pidfileName u

/-- Windows access-right constant `SYNCHRONIZE` (0x00100000), the sole right
requested from `OpenProcess`. -/
def SYNCHRONIZE : Nat := 1048576

/-- Windows `INVALID_HANDLE_VALUE` ((HANDLE)-1), the value
`safe_system` compares the `OpenProcess` result against. -/
def INVALID_HANDLE_VALUE : Int := -1

/-- Windows `NULL` handle, the value `OpenProcess` actually returns on
failure per its platform contract. -/
def NULL_HANDLE : Int := 0

/-- State of `buf` visible to `atoi` after `fread(buf, 1, 80, f)` read the
pidfile contents over the front of the augmented command string: the first
`min 80 (length content)` bytes are the file bytes, the rest of the C string
is untouched (no terminator is written by `fread`). -/
def bufAfterRead (buf content : List Char) : List Char :=
  content.take 80 ++ buf.drop (content.take 80).length

/-- C `atoi`: skip leading whitespace, optional sign, then accumulate the
maximal run of decimal digits (idealised to unbounded `Int`; real `atoi`
has undefined behaviour on overflow). -/
def atoi (s : List Char) : Int :=
  if (s.dropWhile isCSpace).head? = some '-' then
    -(charsVal (((s.dropWhile isCSpace).drop 1).takeWhile isDig) : Int)
  else if (s.dropWhile isCSpace).head? = some '+' then
    (charsVal (((s.dropWhile isCSpace).drop 1).takeWhile isDig) : Int)
  else (charsVal ((s.dropWhile isCSpace).takeWhile isDig) : Int)

/-- The `pid_t pid = atoi(buf)` value of a call: `atoi` applied to the
command buffer after the pidfile bytes were read over its front. -/
def parsedPid (cmd : List Char) (u : Nat) (content : List Char) : Int :=
  atoi (bufAfterRead (augBuf cmd u) content)

/-- Environment a single `safe_system` call runs against: results of the
external collaborators (shell/`system`, filesystem, Cygwin pid translation,
OS handle subsystem). -/
structure Env where
  /-- exit status returned by `system()` for the submission shell -/
  sysRet : Int
  /-- whether `fopen(pidfilename, "r")` succeeds -/
  fopenOk : Bool
  /-- bytes stored in the pidfile -/
  fileContent : List Char
  /-- `cygwin_internal(CW_CYGWIN_PID_TO_WINPID, pid)` -/
  translate : Int → Nat
  /-- `HANDLE` value returned by `OpenProcess` (`NULL_HANDLE` on failure
  per the platform contract) -/
  openResult : Int

/-- Externally visible events of one `safe_system` call, in program order. -/
inductive Ev where
  | enterLock : Ev
  | incrCounter : Nat → Ev
  | callSystem : List Char → Ev
  | leaveLock : Ev
  | fopenFile : List Char → Ev
  | readFile : List Char → Ev
  | closeFile : List Char → Ev
  | removeFile : List Char → Ev
  | parsePid : Int → Ev
  | translatePid : Int → Nat → Ev
  | openHandle : Nat → Nat → Ev
  | wait : Int → Ev
  | closeHandle : Int → Ev
  deriving DecidableEq, Repr

/-- Events up to and including the attempted `fopen` of the pidfile: lock
acquisition, counter increment (inside the lock), the single `system`
invocation with the augmented command, lock release, `fopen`. -/
def submitTrace (cmd : List Char) (u : Nat) : List Ev :=
  [Ev.enterLock, Ev.incrCounter u, Ev.callSystem (augBuf cmd u), Ev.leaveLock,
   Ev.fopenFile (pidfileName u)]

/-- Events of a call whose `fopen` succeeded, up to and including the
`OpenProcess` attempt: read/close/delete the pidfile, parse the pid, translate
it to a Windows pid, open the handle with `SYNCHRONIZE` access. -/
def recoverTrace (cmd : List Char) (u : Nat) (env : Env) : List Ev :=
  submitTrace cmd u ++
    [Ev.readFile (pidfileName u), Ev.closeFile (pidfileName u),
     Ev.removeFile (pidfileName u),
     Ev.parsePid (parsedPid cmd u env.fileContent),
     Ev.translatePid (parsedPid cmd u env.fileContent)
       (env.translate (parsedPid cmd u env.fileContent)),
     Ev.openHandle SYNCHRONIZE (env.translate (parsedPid cmd u env.fileContent))]

/-- `safe_system` on the hazard (Cygwin) platform.  Input: the command, the
current `usecount` bit pattern, and the environment.  Output: return value,
new `usecount` bit pattern, and the event trace of the call.  Note the
handle test compares against `INVALID_HANDLE_VALUE`, exactly as the source
does. -/
def safe_system_cyg (cmd : List Char) (u : Nat) (env : Env) :
    Int × Nat × List Ev :=
  if env.fopenOk then
    if env.openResult = INVALID_HANDLE_VALUE then
      (-1, (u + 1) % 2 ^ 32, recoverTrace cmd u env)
    else
      (env.sysRet, (u + 1) % 2 ^ 32,
        recoverTrace cmd u env ++
          [Ev.wait env.openResult, Ev.closeHandle env.openResult])
  else
    (-1, (u + 1) % 2 ^ 32, submitTrace cmd u)

/-- `safe_system` on a platform without the concurrency hazard (the `#else`
branch): `return system(cmd);`. -/
def safe_system_nohazard (cmd : List Char) (env : Env) : Int × List Ev :=
  (env.sysRet, [Ev.callSystem cmd])

/-- Recognisers for event classes, used to state trace properties. -/
def isLockEv : Ev → Bool
  | Ev.enterLock => true
  | Ev.leaveLock => true
  | _ => false

def isCounterEv : Ev → Bool
  | Ev.incrCounter _ => true
  | _ => false

def isSystemEv : Ev → Bool
  | Ev.callSystem _ => true
  | _ => false

def isFileEv : Ev → Bool
  | Ev.fopenFile _ => true
  | Ev.readFile _ => true
  | Ev.closeFile _ => true
  | Ev.removeFile _ => true
  | _ => false

def isWaitEv : Ev → Bool
  | Ev.wait _ => true
  | _ => false

def isHandleEv : Ev → Bool
  | Ev.openHandle _ _ => true
  | Ev.wait _ => true
  | Ev.closeHandle _ => true
  | _ => false

/-- Whether byte `i` of the C string `l` exists and is a decimal digit. -/
def digitAt (l : List Char) (i : Nat) : Bool :=
  match l.drop i with
  | c :: _ => isDig c
  | [] => false

/-- Counter bit pattern before the n-th call of a fresh process (calls are
numbered from 0; the counter evolution is independent of command and
environment, see `counter_step`). -/
def callCounter : Nat → Nat
  | 0 => 0
  | n + 1 =>
      (safe_system_cyg [] (callCounter n)
        ⟨0, false, [], fun _ => 0, NULL_HANDLE⟩).2.1

/-- Identifier (signed counter value) printed into the n-th call's pidfile
name. -/
def callIdent (n : Nat) : Int := toSigned32 (callCounter n)

/-- Pidfile name used by the n-th call of a fresh process. -/
def callName (n : Nat) : List Char := pidfileName (callCounter n)

/-! ### Lemmas about decimal digit strings -/

theorem digitChar_toNat {d : Nat} (h : d < 10) : (digitChar d).toNat = 48 + d := by
  interval_cases d <;> decide

theorem isDig_digitChar {d : Nat} (h : d < 10) : isDig (digitChar d) = true := by
  interval_cases d <;> decide

theorem natDigits_ne_nil (n : Nat) : natDigits n ≠ [] := by
  rw [natDigits]
  split
  · simp
  · simp

theorem natDigits_all_dig (n : Nat) : ∀ c ∈ natDigits n, isDig c = true := by
  induction n using Nat.strong_induction_on with
  | _ n ih =>
    rw [natDigits]
    split
    · next h =>
      intro c hc
      simp only [List.mem_singleton] at hc
      subst hc
      exact isDig_digitChar h
    · next h =>
      intro c hc
      rcases List.mem_append.mp hc with h1 | h2
      · exact ih (n / 10) (Nat.div_lt_self (by omega) (by omega)) c h1
      · simp only [List.mem_singleton] at h2
        subst h2
        exact isDig_digitChar (Nat.mod_lt _ (by omega))

theorem charsVal_go (l : List Char) (a : Nat) :
    List.foldl (fun x c => 10 * x + (c.toNat - 48)) a l
      = a * 10 ^ l.length + charsVal l := by
  induction l generalizing a with
  | nil => simp [charsVal]
  | cons c t ih =>
    simp only [charsVal, List.foldl_cons, List.length_cons]
    rw [ih, ih (10 * 0 + (c.toNat - 48))]
    ring

theorem charsVal_append (xs ys : List Char) :
    charsVal (xs ++ ys) = charsVal xs * 10 ^ ys.length + charsVal ys := by
  simp only [charsVal, List.foldl_append]
  rw [charsVal_go]
  rfl

theorem charsVal_natDigits (n : Nat) : charsVal (natDigits n) = n := by
  induction n using Nat.strong_induction_on with
  | _ n ih =>
    rw [natDigits]
    split
    · next h =>
      simp [charsVal, digitChar_toNat h]
    · next h =>
      rw [charsVal_append, ih (n / 10) (Nat.div_lt_self (by omega) (by omega))]
      have hm : (n % 10) < 10 := Nat.mod_lt _ (by omega)
      simp only [charsVal, List.foldl_cons, List.foldl_nil, List.length_cons,
        List.length_nil, digitChar_toNat hm]
      omega

theorem natDigits_inj {m n : Nat} (h : natDigits m = natDigits n) : m = n := by
  have hm := charsVal_natDigits m
  rw [h, charsVal_natDigits] at hm
  omega

theorem natDigits_length_le (n : Nat) : ∀ k, 1 ≤ k → n < 10 ^ k →
    (natDigits n).length ≤ k := by
  induction n using Nat.strong_induction_on with
  | _ n ih =>
    intro k hk hn
    rw [natDigits]
    split
    · next h => simpa using hk
    · next h =>
      have hk2 : 2 ≤ k := by
        by_contra hc
        have hk1 : k = 1 := by omega
        subst hk1
        simp only [pow_one] at hn
        omega
      have hdiv : n / 10 < 10 ^ (k - 1) := by
        have hpow : 10 ^ (k - 1) * 10 = 10 ^ k := by
          rw [← pow_succ]
          congr 1
          omega
        rw [Nat.div_lt_iff_lt_mul (by omega)]
        omega
      have := ih (n / 10) (Nat.div_lt_self (by omega) (by omega)) (k - 1) (by omega) hdiv
      simp only [List.length_append, List.length_cons, List.length_nil]
      omega

theorem isDig_not_space {c : Char} (h : isDig c = true) : isCSpace c = false := by
  simp only [isDig, Bool.and_eq_true, decide_eq_true_eq] at h
  by_contra hc
  simp only [Bool.not_eq_false, isCSpace, Bool.or_eq_true, decide_eq_true_eq] at hc
  rcases hc with ((((h1 | h1) | h1) | h1) | h1) | h1 <;> (subst h1; exact absurd h (by decide))

theorem isDig_ne_minus {c : Char} (h : isDig c = true) : c ≠ '-' := by
  intro hc
  subst hc
  exact absurd h (by decide)

theorem isDig_ne_plus {c : Char} (h : isDig c = true) : c ≠ '+' := by
  intro hc
  subst hc
  exact absurd h (by decide)

theorem takeWhile_append_all {p : Char → Bool} (xs ys : List Char)
    (h : ∀ c ∈ xs, p c = true) :
    (xs ++ ys).takeWhile p = xs ++ ys.takeWhile p := by
  induction xs with
  | nil => simp
  | cons c t ih =>
    have hc : p c = true := h c (List.mem_cons_self c t)
    simp only [List.cons_append, List.takeWhile_cons, hc, if_true]
    rw [ih (fun d hd => h d (List.mem_cons_of_mem c hd))]

theorem atoi_digit_head (xs ys : List Char) (hne : xs ≠ [])
    (hall : ∀ c ∈ xs, isDig c = true) :
    atoi (xs ++ ys) = (charsVal (xs ++ ys.takeWhile isDig) : Int) := by
  obtain ⟨c, t, rfl⟩ := List.exists_cons_of_ne_nil hne
  have hc : isDig c = true := hall c (List.mem_cons_self c t)
  have hns : isCSpace c = false := isDig_not_space hc
  have hm : c ≠ '-' := isDig_ne_minus hc
  have hp : c ≠ '+' := isDig_ne_plus hc
  have hsplit : (c :: t) ++ ys = c :: (t ++ ys) := rfl
  unfold atoi
  rw [hsplit]
  simp only [List.dropWhile_cons, hns, Bool.false_eq_true, if_false, List.head?_cons]
  rw [if_neg (by simp [hm]), if_neg (by simp [hp]), ← hsplit,
    takeWhile_append_all (c :: t) ys hall]

/-! ### Shape of a single hazard-platform call -/

theorem shape_fopen_fail (cmd : List Char) (u : Nat) (env : Env)
    (hf : env.fopenOk = false) :
    safe_system_cyg cmd u env =
      (-1, (u + 1) % 2 ^ 32,
        [Ev.enterLock, Ev.incrCounter u, Ev.callSystem (augBuf cmd u),
         Ev.leaveLock, Ev.fopenFile (pidfileName u)]) := by
  unfold safe_system_cyg
  rw [hf]
  rfl

theorem shape_open_fail (cmd : List Char) (u : Nat) (env : Env)
    (hf : env.fopenOk = true) (ho : env.openResult = INVALID_HANDLE_VALUE) :
    safe_system_cyg cmd u env =
      (-1, (u + 1) % 2 ^ 32,
        [Ev.enterLock, Ev.incrCounter u, Ev.callSystem (augBuf cmd u),
         Ev.leaveLock, Ev.fopenFile (pidfileName u),
         Ev.readFile (pidfileName u), Ev.closeFile (pidfileName u),
         Ev.removeFile (pidfileName u),
         Ev.parsePid (parsedPid cmd u env.fileContent),
         Ev.translatePid (parsedPid cmd u env.fileContent)
           (env.translate (parsedPid cmd u env.fileContent)),
         Ev.openHandle SYNCHRONIZE
           (env.translate (parsedPid cmd u env.fileContent))]) := by
  unfold safe_system_cyg
  rw [hf, if_pos ho]
  rfl

theorem shape_success (cmd : List Char) (u : Nat) (env : Env)
    (hf : env.fopenOk = true) (ho : env.openResult ≠ INVALID_HANDLE_VALUE) :
    safe_system_cyg cmd u env =
      (env.sysRet, (u + 1) % 2 ^ 32,
        [Ev.enterLock, Ev.incrCounter u, Ev.callSystem (augBuf cmd u),
         Ev.leaveLock, Ev.fopenFile (pidfileName u),
         Ev.readFile (pidfileName u), Ev.closeFile (pidfileName u),
         Ev.removeFile (pidfileName u),
         Ev.parsePid (parsedPid cmd u env.fileContent),
         Ev.translatePid (parsedPid cmd u env.fileContent)
           (env.translate (parsedPid cmd u env.fileContent)),
         Ev.openHandle SYNCHRONIZE
           (env.translate (parsedPid cmd u env.fileContent)),
         Ev.wait env.openResult, Ev.closeHandle env.openResult]) := by
  unfold safe_system_cyg
  rw [hf, if_neg ho]
  rfl

/-! ### Counter evolution across calls -/

theorem counter_step (cmd : List Char) (u : Nat) (env : Env) :
    (safe_system_cyg cmd u env).2.1 = (u + 1) % 2 ^ 32 := by
  rcases hf : env.fopenOk with _ | _
  · rw [shape_fopen_fail cmd u env hf]
  · by_cases ho : env.openResult = INVALID_HANDLE_VALUE
    · rw [shape_open_fail cmd u env hf ho]
    · rw [shape_success cmd u env hf ho]

theorem callCounter_eq (n : Nat) : callCounter n = n % 2 ^ 32 := by
  induction n with
  | zero => rfl
  | succ n ih =>
    show (safe_system_cyg [] (callCounter n) _).2.1 = _
    rw [counter_step, ih, Nat.mod_add_mod]

theorem toSigned32_of_lt {n : Nat} (h : n < 2 ^ 31) : toSigned32 n = (n : Int) := by
  have h32 : n < 2 ^ 32 := by
    have : (2 : Nat) ^ 31 < 2 ^ 32 := by norm_num
    omega
  unfold toSigned32
  rw [Nat.mod_eq_of_lt h32, if_pos h]

theorem toSigned32_natAbs_le (n : Nat) : (toSigned32 n).natAbs ≤ 2 ^ 31 := by
  have h1 : n % 2 ^ 32 < 2 ^ 32 := Nat.mod_lt _ (by norm_num)
  unfold toSigned32
  split
  · next h => simp only [Int.natAbs_ofNat]; omega
  · next h =>
    have h2 : ¬ n % 2 ^ 32 < 2 ^ 31 := h
    have e31 : (2 : Nat) ^ 31 = 2147483648 := by norm_num
    have e32 : (2 : Nat) ^ 32 = 4294967296 := by norm_num
    have e32i : (2 : Int) ^ 32 = 4294967296 := by norm_num
    rw [e32i, e31]
    omega

theorem pidfileName_inj_of_lt {j k : Nat} (hj : j < 2 ^ 31) (hk : k < 2 ^ 31)
    (hne : j ≠ k) : pidfileName j ≠ pidfileName k := by
  unfold pidfileName
  intro h
  have h2 := List.append_cancel_left h
  unfold decimalRepr at h2
  rw [toSigned32_of_lt hj, toSigned32_of_lt hk] at h2
  rw [if_neg (by omega : ¬ ((j : Int) < 0)), if_neg (by omega : ¬ ((k : Int) < 0))] at h2
  have h3 := natDigits_inj h2
  simp only [Int.natAbs_ofNat] at h3
  exact hne h3

/-! ### Length bounds -/

theorem decimalRepr_length_le (i : Int) (h : i.natAbs < 10 ^ 10) :
    (decimalRepr i).length ≤ 11 := by
  have hlen := natDigits_length_le i.natAbs 10 (by norm_num) h
  unfold decimalRepr
  split
  · simp only [List.length_cons]
    omega
  · omega

theorem pidfileName_length_le (u : Nat) : (pidfileName u).length ≤ 25 := by
  unfold pidfileName
  rw [List.length_append]
  have h1 : PIDFILE_STEM.length = 14 := by decide
  have h2 : (decimalRepr (toSigned32 u)).length ≤ 11 := by
    refine decimalRepr_length_le _ ?_
    have := toSigned32_natAbs_le u
    have : (2 : Nat) ^ 31 < 10 ^ 10 := by norm_num
    omega
  omega

theorem augBuf_length_le (cmd : List Char) (u : Nat) :
    (augBuf cmd u).length ≤ cmd.length + 41 := by
  unfold augBuf
  rw [List.length_append, List.length_append]
  have h1 : GLUE.length = 16 := by decide
  have h2 := pidfileName_length_le u
  omega

/-! ### The claims -/

/-- C1: on the hazard platform a successful call invokes the native `system`
primitive exactly once, with the augmented command equal to the caller's
string followed by the backgrounding glue `" & echo -n $! > "` and the
uniquely named pidfile, and `safe_system` returns exactly that invocation's
result (the submission shell's exit status), recorded before the wait and
unchanged by the later steps. -/
theorem C1_submission_return (cmd : List Char) (u : Nat) (env : Env)
    (hf : env.fopenOk = true) (ho : env.openResult ≠ INVALID_HANDLE_VALUE) :
    (safe_system_cyg cmd u env).1 = env.sysRet ∧
    ((safe_system_cyg cmd u env).2.2).filter isSystemEv
      = [Ev.callSystem (cmd ++ GLUE ++ pidfileName u)] := by
  rw [shape_success cmd u env hf ho]
  refine ⟨rfl, ?_⟩
  simp [isSystemEv, augBuf]

/-- C2 is violated by the code: `OpenProcess` reports failure by returning
the null handle, but the source tests its result against
`INVALID_HANDLE_VALUE`, so a failed open is never detected.  At a concrete
failing input (`OpenProcess` returned `NULL_HANDLE`) the call returns the
submission status 7 rather than -1, and still executes the wait — on the
invalid handle. -/
theorem C2_open_fail_divergence :
    (safe_system_cyg ("true".toList) 0
        ⟨7, true, natDigits 5, fun _ => 0, NULL_HANDLE⟩).1 = 7 ∧
    (safe_system_cyg ("true".toList) 0
        ⟨7, true, natDigits 5, fun _ => 0, NULL_HANDLE⟩).1 ≠ -1 ∧
    Ev.wait NULL_HANDLE ∈ (safe_system_cyg ("true".toList) 0
        ⟨7, true, natDigits 5, fun _ => 0, NULL_HANDLE⟩).2.2 := by
  refine ⟨?_, ?_, ?_⟩ <;> decide

/-- C3: when the pidfile cannot be opened, the call returns -1 and its trace
ends at the failed `fopen`: no wait, no handle operation, no pid parse or
translation happens. -/
theorem C3_fopen_fail_aborts (cmd : List Char) (u : Nat) (env : Env)
    (hf : env.fopenOk = false) :
    (safe_system_cyg cmd u env).1 = -1 ∧
    (safe_system_cyg cmd u env).2.2 =
      [Ev.enterLock, Ev.incrCounter u, Ev.callSystem (augBuf cmd u),
       Ev.leaveLock, Ev.fopenFile (pidfileName u)] ∧
    ((safe_system_cyg cmd u env).2.2).filter isHandleEv = [] := by
  rw [shape_fopen_fail cmd u env hf]
  refine ⟨rfl, rfl, ?_⟩
  simp [isHandleEv]

/-- C4 as stated is false on the code: the submission counter is a 32-bit
machine `int`, so the printed identifiers wrap around: the identifier of call
2^31 is negative (strict increase fails) and call 2^32 reuses call 0's
pidfile name (distinctness fails). -/
theorem C4_counterexample :
    callIdent (2 ^ 31) < callIdent 0 ∧
    callName (2 ^ 32) = callName 0 ∧ (2 ^ 32 : Nat) ≠ 0 := by
  refine ⟨?_, ?_, by norm_num⟩
  · rw [callIdent, callIdent, callCounter_eq, callCounter_eq]
    decide
  · rw [callName, callName, callCounter_eq, callCounter_eq]
    norm_num

/-- C4 amended: per call, the pidfile name is the fixed stem plus the decimal
value of the counter taken while the lock is held, and the counter is
incremented exactly once per call, inside the lock; identifiers are strictly
increasing in call order and the pidfile names pairwise distinct as long as
the process makes at most 2^31 calls. -/
theorem C4_amended (cmd : List Char) (u : Nat) (env : Env) (j k : Nat)
    (hjk : j < k) (hk : k < 2 ^ 31) :
    ((safe_system_cyg cmd u env).2.2).filter isCounterEv = [Ev.incrCounter u] ∧
    (safe_system_cyg cmd u env).2.1 = (u + 1) % 2 ^ 32 ∧
    ((safe_system_cyg cmd u env).2.2).take 4 =
      [Ev.enterLock, Ev.incrCounter u, Ev.callSystem (augBuf cmd u),
       Ev.leaveLock] ∧
    callName j = PIDFILE_STEM ++ decimalRepr (callIdent j) ∧
    callIdent j < callIdent k ∧
    callName j ≠ callName k := by
  have h31 : (2 : Nat) ^ 31 < 2 ^ 32 := by norm_num
  have hcj : callCounter j = j := by
    rw [callCounter_eq]
    exact Nat.mod_eq_of_lt (by omega)
  have hck : callCounter k = k := by
    rw [callCounter_eq]
    exact Nat.mod_eq_of_lt (by omega)
  refine ⟨?_, counter_step cmd u env, ?_, rfl, ?_, ?_⟩
  · rcases hfo : env.fopenOk with _ | _
    · rw [shape_fopen_fail cmd u env hfo]
      simp [isCounterEv]
    · by_cases ho : env.openResult = INVALID_HANDLE_VALUE
      · rw [shape_open_fail cmd u env hfo ho]
        simp [isCounterEv]
      · rw [shape_success cmd u env hfo ho]
        simp [isCounterEv]
  · rcases hfo : env.fopenOk with _ | _
    · rw [shape_fopen_fail cmd u env hfo]
      rfl
    · by_cases ho : env.openResult = INVALID_HANDLE_VALUE
      · rw [shape_open_fail cmd u env hfo ho]
        rfl
      · rw [shape_success cmd u env hfo ho]
        rfl
  · rw [callIdent, callIdent, hcj, hck, toSigned32_of_lt (by omega),
      toSigned32_of_lt hk]
    exact_mod_cast hjk
  · rw [callName, callName, hcj, hck]
    exact pidfileName_inj_of_lt (by omega) hk (by omega)

/-- C5: the lock-held interval covers exactly the counter increment and the
`system` submission: `leaveLock` is the fourth event of every call, the
pidfile `fopen` is the first event after the release, and no lock event
occurs in the remainder of the trace (in particular any wait happens with
the lock released). -/
theorem C5_lock_scope (cmd : List Char) (u : Nat) (env : Env) :
    ∃ rest, (safe_system_cyg cmd u env).2.2 =
      [Ev.enterLock, Ev.incrCounter u, Ev.callSystem (augBuf cmd u),
       Ev.leaveLock] ++ rest ∧
      rest.head? = some (Ev.fopenFile (pidfileName u)) ∧
      rest.filter isLockEv = [] := by
  rcases hfo : env.fopenOk with _ | _
  · rw [shape_fopen_fail cmd u env hfo]
    exact ⟨[Ev.fopenFile (pidfileName u)], rfl, rfl, by simp [isLockEv]⟩
  · by_cases ho : env.openResult = INVALID_HANDLE_VALUE
    · rw [shape_open_fail cmd u env hfo ho]
      refine ⟨_, rfl, rfl, ?_⟩
      simp [isLockEv]
    · rw [shape_success cmd u env hfo ho]
      refine ⟨_, rfl, rfl, ?_⟩
      simp [isLockEv]

/-- C6: on a platform without the concurrency hazard, `safe_system` is a
direct pass-through: it returns exactly `system(cmd)`'s result for the
unmodified command, and performs no locking, counter update, file operation,
or handle operation. -/
theorem C6_passthrough (cmd : List Char) (env : Env) :
    (safe_system_nohazard cmd env).1 = env.sysRet ∧
    (safe_system_nohazard cmd env).2 = [Ev.callSystem cmd] ∧
    ((safe_system_nohazard cmd env).2).filter isLockEv = [] ∧
    ((safe_system_nohazard cmd env).2).filter isCounterEv = [] ∧
    ((safe_system_nohazard cmd env).2).filter isFileEv = [] ∧
    ((safe_system_nohazard cmd env).2).filter isHandleEv = [] := by
  refine ⟨rfl, rfl, ?_, ?_, ?_, ?_⟩ <;>
    simp [safe_system_nohazard, isLockEv, isCounterEv, isFileEv, isHandleEv]

/-- C7: when a call's pidfile opens, the file events of the call are exactly
open, read, close, delete of this call's own pidfile, in that order, all of
them before the process handle is opened and before any wait; the deletion
happens on both the success path and the handle-failure path. -/
theorem C7_pidfile_lifecycle (cmd : List Char) (u : Nat) (env : Env)
    (hf : env.fopenOk = true) :
    ∃ tail, (safe_system_cyg cmd u env).2.2 = recoverTrace cmd u env ++ tail ∧
      tail.filter isFileEv = [] ∧
      ((safe_system_cyg cmd u env).2.2).filter isFileEv =
        [Ev.fopenFile (pidfileName u), Ev.readFile (pidfileName u),
         Ev.closeFile (pidfileName u), Ev.removeFile (pidfileName u)] ∧
      (recoverTrace cmd u env).filter isWaitEv = [] := by
  by_cases ho : env.openResult = INVALID_HANDLE_VALUE
  · rw [shape_open_fail cmd u env hf ho]
    refine ⟨[], by simp [recoverTrace, submitTrace], rfl, ?_, ?_⟩ <;>
      simp [recoverTrace, submitTrace, isFileEv, isWaitEv]
  · rw [shape_success cmd u env hf ho]
    refine ⟨[Ev.wait env.openResult, Ev.closeHandle env.openResult],
      by simp [recoverTrace, submitTrace], ?_, ?_, ?_⟩ <;>
      simp [recoverTrace, submitTrace, isFileEv, isWaitEv]

/-- Concrete digit strings (`natDigits` is defined by well-founded recursion,
so these are proved through its equation lemma). -/
theorem natDigits_five : natDigits 5 = ['5'] := by
  rw [natDigits]
  decide

theorem natDigits_zero : natDigits 0 = ['0'] := by
  rw [natDigits]
  decide

theorem pidfileName_zero : pidfileName 0 = "_yafu_system_.0".toList := by
  unfold pidfileName decimalRepr
  rw [toSigned32_of_lt (by norm_num), if_neg (by norm_num)]
  simp only [Int.natAbs_ofNat]
  rw [natDigits_zero]
  decide

/-- The concrete aliasing example: command "123456" with stored pid 5 parses
back as 523456. -/
theorem parsedPid_concrete :
    parsedPid ("123456".toList) 0 (natDigits 5) = 523456 := by
  rw [natDigits_five]
  unfold parsedPid bufAfterRead augBuf
  rw [pidfileName_zero]
  decide

/-- Core of C9: with the pidfile holding the decimal digits of `pid`, the
`atoi` of the overwritten buffer returns `pid` exactly when the byte of the
augmented command at offset `length (natDigits pid)` is not a digit. -/
theorem parsedPid_eq_iff (cmd : List Char) (u : Nat) (pid : Nat)
    (hpid : 1 ≤ pid) (h80 : (natDigits pid).length ≤ 80) :
    (parsedPid cmd u (natDigits pid) = (pid : Int) ↔
      digitAt (augBuf cmd u) (natDigits pid).length = false) := by
  unfold parsedPid bufAfterRead
  rw [List.take_of_length_le h80]
  rw [atoi_digit_head _ _ (natDigits_ne_nil pid) (natDigits_all_dig pid)]
  rcases hdrop : (augBuf cmd u).drop (natDigits pid).length with _ | ⟨c, r⟩
  · simp only [digitAt, hdrop, List.takeWhile_nil, List.append_nil,
      charsVal_natDigits]
  · by_cases hc : isDig c = true
    · simp only [digitAt, hdrop, List.takeWhile_cons, hc, eq_self_iff_true,
        if_true]
      rw [charsVal_append, charsVal_natDigits]
      constructor
      · intro hEq
        exfalso
        have hnat : pid * 10 ^ (c :: List.takeWhile isDig r).length +
            charsVal (c :: List.takeWhile isDig r) = pid := by exact_mod_cast hEq
        have hlen1 : 1 ≤ (c :: List.takeWhile isDig r).length := by simp
        have h10 : 10 ≤ 10 ^ (c :: List.takeWhile isDig r).length := by
          calc (10 : Nat) = 10 ^ 1 := (pow_one 10).symm
            _ ≤ 10 ^ (c :: List.takeWhile isDig r).length :=
                Nat.pow_le_pow_right (by norm_num) hlen1
        have hmul : pid * 10 ≤ pid * 10 ^ (c :: List.takeWhile isDig r).length :=
          Nat.mul_le_mul_left pid h10
        omega
      · intro hcontra
        simp at hcontra
    · have hcf : isDig c = false := by
        cases hiv : isDig c
        · rfl
        · exact absurd hiv hc
      simp only [digitAt, hdrop, List.takeWhile_cons, hcf, Bool.false_eq_true,
        if_false, List.append_nil, charsVal_natDigits]

/-- C9: the pid used for the wait comes from `atoi` over the reused command
buffer, after at most 80 unterminated bytes of the pidfile were read onto
its front, so it equals the number the shell stored in the pidfile exactly
when the byte of the augmented command at offset equal to the file's length
is not a decimal digit; in particular a command beginning with more digits
than the stored pid has makes the parse disagree (cmd "123456" with pid 5
parses as 523456), and this parsed value is the one the model's call passes
to the pid-translation and wait steps. -/
theorem C9_parse_aliasing (cmd : List Char) (u : Nat) (env : Env) (pid : Nat)
    (hfc : env.fileContent = natDigits pid) (hpid : 1 ≤ pid)
    (h80 : (natDigits pid).length ≤ 80) :
    ((parsedPid cmd u env.fileContent = (pid : Int)) ↔
      digitAt (augBuf cmd u) (natDigits pid).length = false) ∧
    parsedPid ("123456".toList) 0 (natDigits 5) = (523456 : Int) ∧
    (env.fopenOk = true →
      Ev.parsePid (parsedPid cmd u env.fileContent) ∈
        (safe_system_cyg cmd u env).2.2) := by
  refine ⟨by rw [hfc]; exact parsedPid_eq_iff cmd u pid hpid h80,
    parsedPid_concrete, ?_⟩
  intro hf
  by_cases ho : env.openResult = INVALID_HANDLE_VALUE
  · rw [shape_open_fail cmd u env hf ho]
    simp
  · rw [shape_success cmd u env hf ho]
    simp

/-- C10: all buffer writes stay within their allocations: the pidfile name
plus terminator needs fewer than the 64 allocated bytes for every counter
value; the augmented command plus terminator needs fewer than the
`strlen(cmd)+128` allocated bytes; and the at-most-80-byte `fread` into that
buffer fits as well. -/
theorem C10_buffer_bounds (cmd : List Char) (u : Nat) (content : List Char) :
    (pidfileName u).length + 1 < 64 ∧
    (augBuf cmd u).length + 1 < cmd.length + 128 ∧
    (content.take 80).length ≤ 80 ∧ 80 < cmd.length + 128 := by
  have h1 := pidfileName_length_le u
  have h2 := augBuf_length_le cmd u
  exact ⟨by omega, by omega, List.length_take_le 80 content, by omega⟩

/-! ### One-time initialization protocol (C8) -/

/-- Program counter of one thread in the initialization protocol of
`safe_system`: `start` = about to run `InterlockedCompareExchange`;
`doInit` = won the exchange (flag 0→1), about to run
`InitializeCriticalSection`; `setFlag` = lock created, about to run
`initializing++`; `spin` = lost the exchange, inside the
`while (1 == initializing) usleep(10000)` loop; `crit` = past
initialization, proceeding to the submission step. -/
inductive Pc where
  | start : Pc
  | doInit : Pc
  | setFlag : Pc
  | spin : Pc
  | crit : Pc
  deriving DecidableEq, Repr

/-- Global state of the initialization protocol: the tri-state
`initializing` flag (0 not yet, 1 in progress, 2 initialized), whether
`InitializeCriticalSection(&systemcrit)` has run, how many times it ran, and
every thread's program counter. -/
structure InitState (T : Type) where
  flag : Nat
  lockInited : Bool
  initCount : Nat
  pc : T → Pc

/-- Fresh-process initial state: flag 0, lock not created, every thread
before the compare-exchange. -/
def initStart (T : Type) : InitState T := ⟨0, false, 0, fun _ => Pc.start⟩

/-- Pointwise update of the pc map. -/
def updPc {T : Type} [DecidableEq T] (f : T → Pc) (t : T) (p : Pc) : T → Pc :=
  fun x => if x = t then p else f x

/-- Interleaving small-step semantics of the initialization code under
sequential consistency: one thread executes one statement per step. -/
inductive InitStep {T : Type} [DecidableEq T] :
    InitState T → InitState T → Prop where
  | casWin (s : InitState T) (t : T) :
      s.pc t = Pc.start → s.flag = 0 →
      InitStep s ⟨1, s.lockInited, s.initCount, updPc s.pc t Pc.doInit⟩
  | casLose (s : InitState T) (t : T) :
      s.pc t = Pc.start → s.flag ≠ 0 →
      InitStep s ⟨s.flag, s.lockInited, s.initCount, updPc s.pc t Pc.spin⟩
  | createLock (s : InitState T) (t : T) :
      s.pc t = Pc.doInit →
      InitStep s ⟨s.flag, true, s.initCount + 1, updPc s.pc t Pc.setFlag⟩
  | publishFlag (s : InitState T) (t : T) :
      s.pc t = Pc.setFlag →
      InitStep s ⟨s.flag + 1, s.lockInited, s.initCount, updPc s.pc t Pc.crit⟩
  | spinSleep (s : InitState T) (t : T) :
      s.pc t = Pc.spin → s.flag = 1 →
      InitStep s s
  | spinExit (s : InitState T) (t : T) :
      s.pc t = Pc.spin → s.flag ≠ 1 →
      InitStep s ⟨s.flag, s.lockInited, s.initCount, updPc s.pc t Pc.crit⟩

/-- Reachability from the fresh-process initial state. -/
def InitReach {T : Type} [DecidableEq T] (s : InitState T) : Prop :=
  Relation.ReflTransGen InitStep (initStart T) s

/-- Inductive invariant of the initialization protocol. -/
def InitInv {T : Type} (s : InitState T) : Prop :=
  (s.flag = 0 ∨ s.flag = 1 ∨ s.flag = 2) ∧
  (s.flag = 0 →
    (∀ t, s.pc t = Pc.start) ∧ s.initCount = 0 ∧ s.lockInited = false) ∧
  (s.flag = 1 →
    ∃ w, (s.pc w = Pc.doInit ∨ s.pc w = Pc.setFlag) ∧
      (∀ t, t ≠ w → s.pc t = Pc.start ∨ s.pc t = Pc.spin) ∧
      (s.pc w = Pc.doInit → s.initCount = 0 ∧ s.lockInited = false) ∧
      (s.pc w = Pc.setFlag → s.initCount = 1 ∧ s.lockInited = true)) ∧
  (s.flag = 2 →
    (∀ t, s.pc t ≠ Pc.doInit ∧ s.pc t ≠ Pc.setFlag) ∧
    s.initCount = 1 ∧ s.lockInited = true)

theorem initInv_start (T : Type) : InitInv (initStart T) := by
  refine ⟨Or.inl rfl, fun _ => ⟨fun t => rfl, rfl, rfl⟩, ?_, ?_⟩
  · intro h
    exact absurd h (by norm_num [initStart])
  · intro h
    exact absurd h (by norm_num [initStart])

theorem initInv_step {T : Type} [DecidableEq T] {s s' : InitState T}
    (hinv : InitInv s) (hstep : InitStep s s') : InitInv s' := by
  obtain ⟨hf012, h0, h1, h2⟩ := hinv
  cases hstep with
  | casWin t hpc hflag =>
    obtain ⟨hall, hcnt, hini⟩ := h0 hflag
    refine ⟨Or.inr (Or.inl rfl), ?_, ?_, ?_⟩
    · intro h
      exact absurd h (by norm_num)
    · intro _
      refine ⟨t, Or.inl (by simp [updPc]), ?_, ?_, ?_⟩
      · intro t' ht'
        left
        simp only [updPc]
        rw [if_neg ht']
        exact hall t'
      · intro _
        exact ⟨hcnt, hini⟩
      · intro hset
        simp [updPc] at hset
    · intro h
      exact absurd h (by norm_num)
  | casLose t hpc hflag =>
    refine ⟨hf012, ?_, ?_, ?_⟩
    · intro h
      exact absurd h hflag
    · intro h
      obtain ⟨w, hw, hoth, hdo, hset⟩ := h1 h
      have hwt : w ≠ t := by
        intro he
        subst he
        rcases hw with hw | hw <;> rw [hpc] at hw <;> cases hw
      refine ⟨w, ?_, ?_, ?_, ?_⟩
      · simpa only [updPc, if_neg hwt] using hw
      · intro t' ht'
        by_cases hee : t' = t
        · subst hee
          right
          simp [updPc]
        · simp only [updPc, if_neg hee]
          exact hoth t' ht'
      · intro hdo2
        simp only [updPc, if_neg hwt] at hdo2
        exact hdo hdo2
      · intro hset2
        simp only [updPc, if_neg hwt] at hset2
        exact hset hset2
    · intro h
      obtain ⟨hnods, hcnt, hini⟩ := h2 h
      refine ⟨?_, hcnt, hini⟩
      intro t'
      by_cases hee : t' = t
      · subst hee
        constructor <;> simp [updPc]
      · simp only [updPc, if_neg hee]
        exact hnods t'
  | createLock t hpc =>
    have hflag1 : s.flag = 1 := by
      rcases hf012 with h | h | h
      · obtain ⟨hall, _, _⟩ := h0 h
        rw [hall t] at hpc
        cases hpc
      · exact h
      · exact absurd hpc ((h2 h).1 t).1
    obtain ⟨w, hw, hoth, hdo, hset⟩ := h1 hflag1
    have htw : t = w := by
      by_contra hne
      rcases hoth t hne with h' | h' <;> rw [hpc] at h' <;> cases h'
    subst htw
    obtain ⟨hcnt, hini⟩ := hdo hpc
    refine ⟨hf012, ?_, ?_, ?_⟩
    · intro h
      dsimp only at h
      omega
    · intro _
      refine ⟨t, Or.inr (by simp [updPc]), ?_, ?_, ?_⟩
      · intro t' ht'
        simp only [updPc, if_neg ht']
        exact hoth t' ht'
      · intro hdo2
        simp [updPc] at hdo2
      · intro _
        exact ⟨by dsimp only; omega, rfl⟩
    · intro h
      dsimp only at h
      omega
  | publishFlag t hpc =>
    have hflag1 : s.flag = 1 := by
      rcases hf012 with h | h | h
      · obtain ⟨hall, _, _⟩ := h0 h
        rw [hall t] at hpc
        cases hpc
      · exact h
      · exact absurd hpc ((h2 h).1 t).2
    obtain ⟨w, hw, hoth, hdo, hset⟩ := h1 hflag1
    have htw : t = w := by
      by_contra hne
      rcases hoth t hne with h' | h' <;> rw [hpc] at h' <;> cases h'
    subst htw
    obtain ⟨hcnt, hini⟩ := hset hpc
    refine ⟨Or.inr (Or.inr (by dsimp only; omega)), ?_, ?_, ?_⟩
    · intro h
      dsimp only at h
      omega
    · intro h
      dsimp only at h
      omega
    · intro _
      refine ⟨?_, hcnt, hini⟩
      intro t'
      by_cases hee : t' = t
      · subst hee
        constructor <;> simp [updPc]
      · simp only [updPc, if_neg hee]
        rcases hoth t' hee with h' | h' <;> rw [h'] <;> exact ⟨by decide, by decide⟩
  | spinSleep t hpc hflag =>
    exact ⟨hf012, h0, h1, h2⟩
  | spinExit t hpc hflag =>
    have hflag2 : s.flag = 2 := by
      rcases hf012 with h | h | h
      · obtain ⟨hall, _, _⟩ := h0 h
        rw [hall t] at hpc
        cases hpc
      · exact absurd h hflag
      · exact h
    obtain ⟨hnods, hcnt, hini⟩ := h2 hflag2
    refine ⟨hf012, ?_, ?_, ?_⟩
    · intro h
      dsimp only at h
      omega
    · intro h
      dsimp only at h
      omega
    · intro _
      refine ⟨?_, hcnt, hini⟩
      intro t'
      by_cases hee : t' = t
      · subst hee
        constructor <;> simp [updPc]
      · simp only [updPc, if_neg hee]
        exact hnods t'

/-- C8: from the fresh-process state, under every interleaving of any set of
threads, the critical section is created at most once (by the single winner
of the compare-exchange on the tri-state flag), and any thread that has
proceeded past initialization sees the flag fully initialized (2), the lock
created, and the construction run exactly once; losers spin (the
`spinSleep` self-step) only while the flag reads 1. -/
theorem C8_once_init {T : Type} [DecidableEq T] (s : InitState T)
    (hreach : InitReach s) :
    s.initCount ≤ 1 ∧
    (∀ t, s.pc t = Pc.crit →
      s.flag = 2 ∧ s.lockInited = true ∧ s.initCount = 1) := by
  have hinv : InitInv s := by
    induction hreach with
    | refl => exact initInv_start T
    | tail hsteps hstep ih => exact initInv_step ih hstep
  obtain ⟨hf012, h0, h1, h2⟩ := hinv
  constructor
  · rcases hf012 with h | h | h
    · have := (h0 h).2.1
      omega
    · obtain ⟨w, hw, _, hdo, hset⟩ := h1 h
      rcases hw with hw | hw
      · have := (hdo hw).1
        omega
      · have := (hset hw).1
        omega
    · have := (h2 h).2.1
      omega
  · intro t hcrit
    rcases hf012 with h | h | h
    · have hstart := (h0 h).1 t
      rw [hcrit] at hstart
      cases hstart
    · obtain ⟨w, hw, hoth, _, _⟩ := h1 h
      by_cases hwt : t = w
      · subst hwt
        rcases hw with hw | hw <;> rw [hcrit] at hw <;> cases hw
      · rcases hoth t hwt with h' | h' <;> rw [hcrit] at h' <;> cases h'
    · exact ⟨h, (h2 h).2.2, (h2 h).2.1⟩

/-! ### Concrete witnesses -/

/-- A three-step run for the initialization protocol: the only thread wins
the exchange, creates the lock, publishes the flag, and proceeds. -/
def wit0 : InitState Unit := initStart Unit

def wit1 : InitState Unit := ⟨1, false, 0, updPc wit0.pc () Pc.doInit⟩

def wit2 : InitState Unit := ⟨1, true, 1, updPc wit1.pc () Pc.setFlag⟩

def wit3 : InitState Unit := ⟨2, true, 1, updPc wit2.pc () Pc.crit⟩

theorem wit3_reach : InitReach wit3 := by
  have h1 : InitStep wit0 wit1 := InitStep.casWin wit0 () rfl rfl
  have h2 : InitStep wit1 wit2 := InitStep.createLock wit1 () rfl
  have h3 : InitStep wit2 wit3 := InitStep.publishFlag wit2 () rfl
  exact Relation.ReflTransGen.head h1 (Relation.ReflTransGen.head h2
    (Relation.ReflTransGen.single h3))

/-- Witness for C1 at a concrete successful call. -/
theorem C1_submission_return_witness :
    (safe_system_cyg ("ls".toList) 0 ⟨7, true, natDigits 5, fun _ => 0, 5⟩).1
      = (7 : Int) ∧
    ((safe_system_cyg ("ls".toList) 0
        ⟨7, true, natDigits 5, fun _ => 0, 5⟩).2.2).filter isSystemEv
      = [Ev.callSystem ("ls".toList ++ GLUE ++ pidfileName 0)] :=
  C1_submission_return ("ls".toList) 0 ⟨7, true, natDigits 5, fun _ => 0, 5⟩
    rfl (by decide)

/-- Witness for C3 at a concrete call whose pidfile does not open. -/
theorem C3_fopen_fail_aborts_witness :
    (safe_system_cyg ("ls".toList) 0 ⟨7, false, [], fun _ => 0, 0⟩).1 = -1 ∧
    (safe_system_cyg ("ls".toList) 0 ⟨7, false, [], fun _ => 0, 0⟩).2.2 =
      [Ev.enterLock, Ev.incrCounter 0, Ev.callSystem (augBuf ("ls".toList) 0),
       Ev.leaveLock, Ev.fopenFile (pidfileName 0)] ∧
    ((safe_system_cyg ("ls".toList) 0 ⟨7, false, [], fun _ => 0, 0⟩).2.2).filter
      isHandleEv = [] :=
  C3_fopen_fail_aborts ("ls".toList) 0 ⟨7, false, [], fun _ => 0, 0⟩ rfl

/-- Witness for the amended C4 at calls 0 and 1. -/
theorem C4_amended_witness :
    ((safe_system_cyg [] 0 ⟨0, false, [], fun _ => 0, 0⟩).2.2).filter isCounterEv
      = [Ev.incrCounter 0] ∧
    (safe_system_cyg [] 0 ⟨0, false, [], fun _ => 0, 0⟩).2.1 = (0 + 1) % 2 ^ 32 ∧
    ((safe_system_cyg [] 0 ⟨0, false, [], fun _ => 0, 0⟩).2.2).take 4 =
      [Ev.enterLock, Ev.incrCounter 0, Ev.callSystem (augBuf [] 0),
       Ev.leaveLock] ∧
    callName 0 = PIDFILE_STEM ++ decimalRepr (callIdent 0) ∧
    callIdent 0 < callIdent 1 ∧
    callName 0 ≠ callName 1 :=
  C4_amended [] 0 ⟨0, false, [], fun _ => 0, 0⟩ 0 1 (by norm_num) (by norm_num)

/-- Witness for C7 at a concrete call whose pidfile opens. -/
theorem C7_pidfile_lifecycle_witness :
    ∃ tail,
      (safe_system_cyg ("ls".toList) 0 ⟨7, true, natDigits 5, fun _ => 0, 5⟩).2.2
        = recoverTrace ("ls".toList) 0 ⟨7, true, natDigits 5, fun _ => 0, 5⟩
            ++ tail ∧
      tail.filter isFileEv = [] ∧
      ((safe_system_cyg ("ls".toList) 0
          ⟨7, true, natDigits 5, fun _ => 0, 5⟩).2.2).filter isFileEv =
        [Ev.fopenFile (pidfileName 0), Ev.readFile (pidfileName 0),
         Ev.closeFile (pidfileName 0), Ev.removeFile (pidfileName 0)] ∧
      (recoverTrace ("ls".toList) 0
          ⟨7, true, natDigits 5, fun _ => 0, 5⟩).filter isWaitEv = [] :=
  C7_pidfile_lifecycle ("ls".toList) 0 ⟨7, true, natDigits 5, fun _ => 0, 5⟩ rfl

/-- Witness for C8: after the three-step run, the thread is past
initialization with the flag at 2 and the lock created exactly once. -/
theorem C8_once_init_witness :
    wit3.initCount ≤ 1 ∧
    (∀ t, wit3.pc t = Pc.crit →
      wit3.flag = 2 ∧ wit3.lockInited = true ∧ wit3.initCount = 1) :=
  C8_once_init wit3 wit3_reach

/-- Witness for C9 at command "ls" and pid 5: offset 1 of the augmented
command holds 's', not a digit, so the parse is faithful there; the theorem
also carries the concrete aliasing example. -/
theorem C9_parse_aliasing_witness :
    ((parsedPid ("ls".toList) 0 (natDigits 5) = ((5 : Nat) : Int)) ↔
      digitAt (augBuf ("ls".toList) 0) (natDigits 5).length = false) ∧
    parsedPid ("123456".toList) 0 (natDigits 5) = (523456 : Int) ∧
    ((⟨0, true, natDigits 5, fun _ => 0, 0⟩ : Env).fopenOk = true →
      Ev.parsePid (parsedPid ("ls".toList) 0 (natDigits 5)) ∈
        (safe_system_cyg ("ls".toList) 0
          ⟨0, true, natDigits 5, fun _ => 0, 0⟩).2.2) :=
  C9_parse_aliasing ("ls".toList) 0 ⟨0, true, natDigits 5, fun _ => 0, 0⟩ 5 rfl
    (by norm_num) (by rw [natDigits_five]; norm_num)

end SafeSystem
